import Mathlib

/-!
# Verification of the minix-shell process-orchestration core

A shallow embedding of `src/shell/src/mshell.c` (the whole repository source).
The circular linked lists of the parser structures (`pipelineseq`, `commandseq`,
`argseq`, `redirseq`) are re-expressed as ordered finite Lean lists, following
the representation note in the design document (§9): a non-NULL circular list
corresponds to a non-empty `List`, and a NULL pointer slot to `Option.none`.

Collaborator code that is part of the repository but not under `src/`
(`reader.c`, `childmanager.c`, `builtins.h`, `config.h`) is modelled from the
specification where a definition explicitly says so; everything else is a
direct translation of `mshell.c`.
-/

set_option autoImplicit false

namespace MShell

/-- Redirection direction, from `siparse.h` flags `IS_RIN` / `IS_ROUT` / `IS_RAPPEND`
as dispatched in `addRedirs` (mshell.c lines 71-87). -/
inductive RedirKind
  | rin
  | rout
  | rappend
  deriving DecidableEq

/-- A `redir` record: direction flags and target filename. -/
structure Redir where
  kind : RedirKind
  filename : String
  deriving DecidableEq

/-- A `command` record: the argument list (`argseq`, head = program name, non-empty
by the parser invariant) and the redirection list (`redirseq`, possibly empty). -/
structure Command where
  args : List String
  redirs : List Redir
  deriving DecidableEq

/-- A `pipeline` record as produced by the parser: the `commandseq` list, whose
slots may hold a NULL `command` pointer (`Option.none`), and the background flag
(`pl->flags == INBACKGROUND`). -/
structure RawPipeline where
  commands : List (Option Command)
  background : Bool
  deriving DecidableEq

/-- A validated pipeline handed to execution: every command slot is a real command. -/
structure Pipeline where
  commands : List Command
  background : Bool
  deriving DecidableEq

/-- `isEmptyPipeline` (mshell.c lines 147-156): a NULL pipeline pointer, a NULL
command list, or a list holding exactly one NULL command (the `"; ;"` case). -/
def isEmptyPipeline : Option RawPipeline → Bool
  | none => true
  | some p =>
    match p.commands with
    | [] => true
    | [none] => true
    | _ => false

/-- The check performed by the "Check validity" loop body of `removeEmptyPipelines`
(mshell.c lines 208-216): does some command slot of the pipeline hold NULL? -/
def hasNullCommand : Option RawPipeline → Bool
  | none => false
  | some p => p.commands.any (fun c => c.isNone)

/-- The search loop of `removeEmptyPipelines` (mshell.c lines 176-181): advance
around the circular list for at most `fuel = num_pipelines` steps until the
current pipeline is non-empty.  Advancing on a circular list is modelled as
rotating the examined head element to the back. -/
def skipEmpties : Nat → List (Option RawPipeline) → List (Option RawPipeline)
  | 0, l => l
  | _ + 1, [] => []
  | n + 1, p :: rest =>
    if isEmptyPipeline p then skipEmpties n (rest ++ [p]) else p :: rest

/-- `removeEmptyPipelines` (mshell.c lines 161-220).  Input `none` models
`*pipelines == NULL` (a parse failure); the result `none` models the return
value `-1`, and `some l` a success with return value `l.length`.

The C function (1) counts the circular list, (2) rotates the head to the first
non-empty pipeline (`skipEmpties` with fuel `num_pipelines`), (3) returns 0 with
`*pipelines = NULL` if every pipeline is empty, (4) walks once more around the
circular list removing every empty pipeline — the removal loop makes exactly
`num_pipelines` steps starting at `head->next`, so it examines each non-head
node exactly once and the (non-empty) head once, i.e. it filters the tail —
and (5) runs the "Check validity" loop.  That last loop (lines 206-217) never
advances `curr`, so it inspects only the FIRST pipeline of the resulting list,
`num_pipelines` times; the translation reproduces this faithfully. -/
def removeEmptyPipelines (ps : Option (List (Option RawPipeline))) :
    Option (List (Option RawPipeline)) :=
  match ps with
  | none => none
  | some l =>
    match skipEmpties l.length l with
    | [] => none
    | q :: rest =>
      if isEmptyPipeline q then some []
      else if hasNullCommand q then none
      else some (q :: rest.filter (fun p => !isEmptyPipeline p))

/-- Modelled from the spec: the line reader (`reader.c`, not under `src/`)
"supplies the next raw line, end-of-input, or a malformed-input signal" (§6).
`eof` models `getLine() == NULL` with `errno != EIO`; `ioErr` models the
malformed-input signal (`errno == EIO`); `line parsed` carries the result of
`parseline` (`siparse`, also not under `src/`) on the raw line, where `none`
models a NULL parse result. -/
inductive ReadResult
  | eof
  | ioErr
  | line (parsed : Option (List (Option RawPipeline)))

/-- Outcome of one `handleLine` call (mshell.c lines 271-294): terminate the
shell with the success status, print the syntax-error diagnostic and discard
the line, or execute the given pipelines in list order. -/
inductive HandleOutcome
  | exitSuccess
  | syntaxErr
  | run (ps : List (Option RawPipeline))
  deriving DecidableEq

/-- `handleLine` (mshell.c lines 271-294): a malformed-input signal prints the
syntax error and returns; end-of-input calls `exit(EXIT_SUCCESS)`; otherwise the
parsed line is validated with `removeEmptyPipelines` and, on `-1`, the syntax
error is printed and the line discarded, else the `count` surviving pipelines
are executed in order. -/
def handleLine : ReadResult → HandleOutcome
  | .ioErr => .syntaxErr
  | .eof => .exitSuccess
  | .line parsed =>
    match removeEmptyPipelines parsed with
    | none => .syntaxErr
    | some ps => .run ps

/-! ## Lemmas about the validation pass -/

lemma skipEmpties_length : ∀ (n : Nat) (l : List (Option RawPipeline)),
    (skipEmpties n l).length = l.length := by
  intro n
  induction n with
  | zero => intro l; rfl
  | succ n ih =>
    intro l
    cases l with
    | nil => rfl
    | cons p rest =>
      simp only [skipEmpties]
      by_cases hp : isEmptyPipeline p
      · simp [hp, ih (rest ++ [p])]
      · simp [hp]

lemma skipEmpties_mem : ∀ (n : Nat) (l : List (Option RawPipeline)) (q : Option RawPipeline),
    q ∈ skipEmpties n l → q ∈ l := by
  intro n
  induction n with
  | zero => intro l q hq; exact hq
  | succ n ih =>
    intro l q hq
    cases l with
    | nil => exact hq
    | cons p rest =>
      simp only [skipEmpties] at hq
      by_cases hp : isEmptyPipeline p
      · rw [if_pos hp] at hq
        have := ih (rest ++ [p]) q hq
        simp only [List.mem_append, List.mem_singleton] at this
        rcases this with h | h
        · exact List.mem_cons_of_mem _ h
        · exact h ▸ List.mem_cons_self _ _
      · rw [if_neg hp] at hq
        exact hq

lemma skipEmpties_rotate : ∀ (l1 : List (Option RawPipeline)) (n : Nat)
    (l2 : List (Option RawPipeline)) (p : Option RawPipeline),
    l1.length ≤ n → (∀ q ∈ l1, isEmptyPipeline q = true) → isEmptyPipeline p = false →
    skipEmpties n (l1 ++ p :: l2) = p :: (l2 ++ l1) := by
  intro l1
  induction l1 with
  | nil =>
    intro n l2 p _ _ hp
    cases n with
    | zero => simp [skipEmpties]
    | succ n => simp [skipEmpties, hp]
  | cons q l1 ih =>
    intro n l2 p hn hall hp
    cases n with
    | zero => simp at hn
    | succ n =>
      have hq : isEmptyPipeline q = true := hall q (List.mem_cons_self _ _)
      have hle : l1.length ≤ n := by simpa using hn
      have step : skipEmpties (n + 1) ((q :: l1) ++ p :: l2) =
          skipEmpties n ((l1 ++ p :: l2) ++ [q]) := by
        simp [skipEmpties, hq]
      rw [step, List.append_assoc, List.cons_append,
        ih n (l2 ++ [q]) p hle (fun r hr => hall r (List.mem_cons_of_mem _ hr)) hp]
      simp

lemma dropWhile_head_false {α : Type} (pr : α → Bool) :
    ∀ (l : List α) (a : α) (t : List α), l.dropWhile pr = a :: t → pr a = false := by
  intro l
  induction l with
  | nil => intro a t h; simp [List.dropWhile] at h
  | cons b l ih =>
    intro a t h
    by_cases hb : pr b
    · rw [List.dropWhile_cons_of_pos hb] at h
      exact ih a t h
    · rw [List.dropWhile_cons_of_neg hb] at h
      cases h
      exact Bool.eq_false_iff.mpr hb

/-- Claim C7: the validation pass drops exactly the entirely-empty pipelines,
preserving the order of the rest, and a line whose pipelines are all empty
validates to the empty executable sequence (not an error); `handleLine` then
schedules exactly the surviving pipelines, in order.  The hypothesis states
that no surviving (non-empty) pipeline has a NULL command slot, i.e. the line
is structurally well formed. -/
theorem C7_empty_pipelines_dropped (l : List (Option RawPipeline)) (h1 : l ≠ [])
    (h2 : ∀ p ∈ l, isEmptyPipeline p = false → hasNullCommand p = false) :
    removeEmptyPipelines (some l) = some (l.filter (fun p => !isEmptyPipeline p)) ∧
    handleLine (.line (some l)) = .run (l.filter (fun p => !isEmptyPipeline p)) := by
  have main : removeEmptyPipelines (some l) =
      some (l.filter (fun p => !isEmptyPipeline p)) := by
    rcases hd : l.dropWhile isEmptyPipeline with _ | ⟨p, l2⟩
    · -- every pipeline of the line is empty
      have hall : ∀ q ∈ l, isEmptyPipeline q = true := by
        intro q hq
        have : l.takeWhile isEmptyPipeline = l := by
          have := List.takeWhile_append_dropWhile (p := isEmptyPipeline) (l := l)
          rw [hd] at this; simpa using this
        exact List.mem_takeWhile_imp (this ▸ hq)
      have hfil : l.filter (fun p => !isEmptyPipeline p) = [] := by
        rw [List.filter_eq_nil_iff]
        intro a ha
        simp [hall a ha]
      rcases hs : skipEmpties l.length l with _ | ⟨q, rest⟩
      · exfalso
        have := skipEmpties_length l.length l
        rw [hs] at this
        exact h1 (List.length_eq_zero.mp this.symm)
      · have hq : isEmptyPipeline q = true :=
          hall q (skipEmpties_mem l.length l q (hs ▸ List.mem_cons_self _ _))
        simp [removeEmptyPipelines, hs, hq, hfil]
    · -- `p` is the first non-empty pipeline
      have hp : isEmptyPipeline p = false := dropWhile_head_false _ l p l2 hd
      have hsplit : l = l.takeWhile isEmptyPipeline ++ p :: l2 := by
        conv_lhs => rw [← List.takeWhile_append_dropWhile (p := isEmptyPipeline) (l := l)]
        rw [hd]
      have htake : ∀ q ∈ l.takeWhile isEmptyPipeline, isEmptyPipeline q = true :=
        fun q hq => List.mem_takeWhile_imp hq
      have hrot : skipEmpties l.length l = p :: (l2 ++ l.takeWhile isEmptyPipeline) := by
        conv_lhs => rw [hsplit]
        exact skipEmpties_rotate _ _ l2 p
          (by rw [List.length_append]; omega) htake hp
      have hpin : p ∈ l := by rw [hsplit]; simp
      have hnull : hasNullCommand p = false := h2 p hpin hp
      have htfil : (l.takeWhile isEmptyPipeline).filter (fun q => !isEmptyPipeline q) = [] := by
        rw [List.filter_eq_nil_iff]
        intro a ha
        simp [htake a ha]
      rw [removeEmptyPipelines, hrot]
      simp only [hp, Bool.false_eq_true, if_false, hnull, if_neg]
      rw [List.filter_append, htfil, List.append_nil]
      conv_rhs => rw [hsplit]
      rw [List.filter_append, htfil]
      simp [hp]
  exact ⟨main, by simp [handleLine, main]⟩

/-- Claim C1 (code bug): the input `"cmd1 | | cmd2"` alone IS rejected
(`removeEmptyPipelines` returns `-1` and `handleLine` reports the syntax
error), but the same malformed pipeline placed after a non-empty pipeline, as
in `"ls ; cmd1 | | cmd2"`, is NOT detected: the validity-check loop of
`removeEmptyPipelines` (mshell.c lines 206-217) never advances `curr`, so it
only inspects the first pipeline, and `handleLine` schedules both pipelines —
including the malformed one — for execution instead of rejecting the line. -/
theorem C1_validity_check_misses_later_pipelines :
    removeEmptyPipelines
        (some [some ⟨[some ⟨["cmd1"], []⟩, none, some ⟨["cmd2"], []⟩], false⟩]) = none
    ∧ handleLine
        (.line (some [some ⟨[some ⟨["cmd1"], []⟩, none, some ⟨["cmd2"], []⟩], false⟩]))
        = .syntaxErr
    ∧ removeEmptyPipelines
        (some [some ⟨[some ⟨["ls"], []⟩], false⟩,
               some ⟨[some ⟨["cmd1"], []⟩, none, some ⟨["cmd2"], []⟩], false⟩])
        = some [some ⟨[some ⟨["ls"], []⟩], false⟩,
                some ⟨[some ⟨["cmd1"], []⟩, none, some ⟨["cmd2"], []⟩], false⟩]
    ∧ handleLine
        (.line (some [some ⟨[some ⟨["ls"], []⟩], false⟩,
                      some ⟨[some ⟨["cmd1"], []⟩, none, some ⟨["cmd2"], []⟩], false⟩]))
        = .run [some ⟨[some ⟨["ls"], []⟩], false⟩,
                some ⟨[some ⟨["cmd1"], []⟩, none, some ⟨["cmd2"], []⟩], false⟩] := by
  refine ⟨by decide, by decide, by decide, by decide⟩

/-- Witness for C7 at the line `"true ; ; false"`: the middle pipeline is the
empty placeholder, and exactly the two real pipelines survive, in order. -/
theorem C7_empty_pipelines_dropped_w :
    removeEmptyPipelines
        (some [some ⟨[some ⟨["true"], []⟩], false⟩, some ⟨[none], false⟩,
               some ⟨[some ⟨["false"], []⟩], false⟩])
        = some [some ⟨[some ⟨["true"], []⟩], false⟩, some ⟨[some ⟨["false"], []⟩], false⟩]
    ∧ handleLine
        (.line (some [some ⟨[some ⟨["true"], []⟩], false⟩, some ⟨[none], false⟩,
                      some ⟨[some ⟨["false"], []⟩], false⟩]))
        = .run [some ⟨[some ⟨["true"], []⟩], false⟩, some ⟨[some ⟨["false"], []⟩], false⟩] := by
  have h := C7_empty_pipelines_dropped
    [some ⟨[some ⟨["true"], []⟩], false⟩, some ⟨[none], false⟩,
     some ⟨[some ⟨["false"], []⟩], false⟩]
    (by decide) (by decide)
  exact ⟨by rw [h.1]; decide, by rw [h.2]; decide⟩

/-! ## The parent-side execution trace of `runPipeline`

The parent process's observable actions are modelled as a list of events in
program order.  File descriptors are symbolic: `dupIn` is the result of the
single `dup(STDIN_FILENO)` call, and `pipeRead i` / `pipeWrite i` are the two
ends of the `i`-th `pipe()` created for the pipeline (counting from 0). -/

/-- Symbolic parent-side file descriptors. -/
inductive Fd
  | stdin
  | stdout
  | dupIn
  | pipeRead (i : Nat)
  | pipeWrite (i : Nat)
  deriving DecidableEq

/-- One observable parent-side action of `runPipeline` (mshell.c lines 222-269).
`spawn c readFd pipeIdx bg` is one `runCommand` call: `fork()`, handing the
child `readFd` as its standard input and, when `pipeIdx = some i`, the write
end of pipe `i` as its standard output (`pipeIdx = none` means the child keeps
the shell's own standard output); in the parent branch the pid is registered
with `registerForegroundChild` when `bg = false`.  `blockChld` / `unblockChld`
are `blockChildSignal()` / `unblockChildSignal()` (SIGCHLD delivery), `waitFg`
is `waitForForegroundChildren()`, and `builtinCall` is a synchronous in-process
builtin invocation with the command's argument vector. -/
inductive Event
  | dupStdin
  | blockChld
  | unblockChld
  | mkPipe (i : Nat)
  | spawn (c : Command) (readFd : Fd) (pipeIdx : Option Nat) (bg : Bool)
  | closeFd (f : Fd)
  | waitFg
  | builtinCall (name : String) (argv : List String)
  | diag (msg : String)
  deriving DecidableEq

/-- The pipe-building loop plus the final stage of `runPipeline` (mshell.c lines
250-263): for every command except the last, create pipe `i`, launch the stage
reading from `readFd` and writing to pipe `i`, then close `readFd` and the pipe
write end in the parent and continue with `pipeRead i` as the next stage's
input; the last command is launched with no pipe and its input is closed. -/
def stageEvents (bg : Bool) : List Command → Fd → Nat → List Event
  | [], _, _ => []
  | [c], readFd, _ => [.spawn c readFd none bg, .closeFd readFd]
  | c :: c2 :: cs, readFd, i =>
    .mkPipe i :: .spawn c readFd (some i) bg :: .closeFd readFd ::
      .closeFd (.pipeWrite i) :: stageEvents bg (c2 :: cs) (.pipeRead i) (i + 1)

/-- The general (forking) path of `runPipeline` (mshell.c lines 243-268):
`dup(STDIN_FILENO)`, `blockChildSignal()`, the stage chain, then
`waitForForegroundChildren()` for a foreground pipeline, and finally
`unblockChildSignal()`. -/
def generalPathEvents (bg : Bool) (cmds : List Command) : List Event :=
  .dupStdin :: .blockChld ::
    (stageEvents bg cmds .dupIn 0 ++ (if bg then [] else [.waitFg]) ++ [.unblockChld])

/-- Modelled from the spec: the builtin registry (`builtins.h`, not under
`src/`) "maps a program name to an in-process handler of shape
(argument sequence) → success|failure" (§6).  `getBuiltin` is modelled as a
function returning `some handler` for a registered name and `none` otherwise;
a handler returns `false` for `BUILTIN_ERROR`. -/
def BuiltinRegistry : Type := String → Option (List String → Bool)

/-- `runPipeline` (mshell.c lines 222-269) as a parent-side event trace.  The
fast path (lines 232-241) fires when the pipeline has exactly one command, that
command has no redirections, the pipeline is foreground, and `getBuiltin` knows
the program name: the builtin runs synchronously in-process with the command's
argument vector, a `BUILTIN_ERROR` result prints the diagnostic, and control
returns with no process created.  Otherwise the general path runs. -/
def runPipeline (B : BuiltinRegistry) (pl : Pipeline) : List Event :=
  let fast : Option (Command × (List String → Bool)) :=
    match pl.commands with
    | [c] =>
      if c.redirs.isEmpty && !pl.background then
        match B (c.args.headD "") with
        | some f => some (c, f)
        | none => none
      else none
    | _ => none
  match fast with
  | some (c, f) =>
    Event.builtinCall (c.args.headD "") c.args ::
      (if f c.args then []
       else [Event.diag ("Builtin " ++ c.args.headD "" ++ " error.")])
  | none => generalPathEvents pl.background pl.commands

/-- The pipeline loop of `handleLine` (mshell.c lines 289-293): the validated
pipelines are executed strictly one after another, each producing its
`runPipeline` trace before the next one starts. -/
def lineTrace (B : BuiltinRegistry) : List Pipeline → List Event
  | [] => []
  | p :: ps => runPipeline B p ++ lineTrace B ps

/-! ### Event classifiers and trace-shape measures -/

def isSpawnEv : Event → Bool
  | .spawn _ _ _ _ => true
  | _ => false

def isMkPipeEv : Event → Bool
  | .mkPipe _ => true
  | _ => false

def isDupEv : Event → Bool
  | .dupStdin => true
  | _ => false

def isWaitEv : Event → Bool
  | .waitFg => true
  | _ => false

def isBlockEv : Event → Bool
  | .blockChld => true
  | _ => false

def isUnblockEv : Event → Bool
  | .unblockChld => true
  | _ => false

/-- The `(command, input descriptor, output pipe)` triples of the `spawn`
events of a trace, in order. -/
def spawnsOf : List Event → List (Command × Fd × Option Nat)
  | [] => []
  | .spawn c f p _ :: es => (c, f, p) :: spawnsOf es
  | _ :: es => spawnsOf es

/-- The descriptors closed by the parent, in order. -/
def closesOf : List Event → List Fd
  | [] => []
  | .closeFd f :: es => f :: closesOf es
  | _ :: es => closesOf es

/-- The claimed wiring of a pipeline chain: the first stage reads `r0`, each
later stage reads the previous pipe's read end, every stage but the last
writes to a fresh pipe, and the last stage has no pipe (it inherits the
shell's standard output). -/
def wiring (r0 : Fd) (i0 : Nat) : List Command → List (Command × Fd × Option Nat)
  | [] => []
  | [c] => [(c, r0, none)]
  | c :: c2 :: cs => (c, r0, some i0) :: wiring (.pipeRead i0) (i0 + 1) (c2 :: cs)

/-- The parent-side closes a chain of `m` pipes starting at index `i0` must
perform: both ends of every pipe, each exactly once, in chain order. -/
def pipeCloses (i0 : Nat) : Nat → List Fd
  | 0 => []
  | m + 1 => .pipeWrite i0 :: .pipeRead i0 :: pipeCloses (i0 + 1) m

/-- Checks that every descriptor handed to a child is closed by the parent
immediately after the handoff: a `spawn` with no pipe is followed directly by
the close of the child's input descriptor, and a `spawn` with a pipe by the
closes of the input descriptor and of the pipe's write end. -/
def handedClosed : List Event → Bool
  | [] => true
  | .spawn _ f none _ :: .closeFd f2 :: rest =>
    f == f2 && handedClosed (.closeFd f2 :: rest)
  | .spawn _ f (some i) _ :: .closeFd f2 :: .closeFd f3 :: rest =>
    f == f2 && (Fd.pipeWrite i == f3) && handedClosed (.closeFd f2 :: .closeFd f3 :: rest)
  | .spawn _ _ _ _ :: _ => false
  | _ :: rest => handedClosed rest

/-- Runs the SIGCHLD-blocked flag through a trace and checks that every
`spawn` and every `waitFg` happens while delivery of the child-termination
signal is blocked. -/
def spawnsBlocked : Bool → List Event → Bool
  | _, [] => true
  | _, .blockChld :: rest => spawnsBlocked true rest
  | _, .unblockChld :: rest => spawnsBlocked false rest
  | b, .spawn _ _ _ _ :: rest => b && spawnsBlocked b rest
  | b, .waitFg :: rest => b && spawnsBlocked b rest
  | b, _ :: rest => spawnsBlocked b rest

/-! ### Trace lemmas -/

lemma spawnsOf_append : ∀ (a b : List Event), spawnsOf (a ++ b) = spawnsOf a ++ spawnsOf b := by
  intro a b
  induction a with
  | nil => rfl
  | cons e es ih => cases e <;> simp [spawnsOf, ih]

lemma closesOf_append : ∀ (a b : List Event), closesOf (a ++ b) = closesOf a ++ closesOf b := by
  intro a b
  induction a with
  | nil => rfl
  | cons e es ih => cases e <;> simp [closesOf, ih]

lemma spawnsOf_stage (bg : Bool) : ∀ (cmds : List Command) (r0 : Fd) (i0 : Nat),
    spawnsOf (stageEvents bg cmds r0 i0) = wiring r0 i0 cmds := by
  intro cmds
  induction cmds with
  | nil => intro r0 i0; rfl
  | cons c cs ih =>
    intro r0 i0
    cases cs with
    | nil => rfl
    | cons c2 cs2 => simp [stageEvents, wiring, spawnsOf, ih]

lemma stage_kinds (bg : Bool) : ∀ (cmds : List Command) (r0 : Fd) (i0 : Nat),
    ∀ e ∈ stageEvents bg cmds r0 i0,
      isBlockEv e = false ∧ isUnblockEv e = false ∧ isWaitEv e = false ∧ isDupEv e = false := by
  intro cmds
  induction cmds with
  | nil => intro r0 i0 e he; simp [stageEvents] at he
  | cons c cs ih =>
    intro r0 i0 e he
    cases cs with
    | nil =>
      simp only [stageEvents, List.mem_cons, List.mem_singleton] at he
      rcases he with rfl | rfl | h
      · exact ⟨rfl, rfl, rfl, rfl⟩
      · exact ⟨rfl, rfl, rfl, rfl⟩
      · simp at h
    | cons c2 cs2 =>
      simp only [stageEvents, List.mem_cons] at he
      rcases he with rfl | rfl | rfl | rfl | h
      · exact ⟨rfl, rfl, rfl, rfl⟩
      · exact ⟨rfl, rfl, rfl, rfl⟩
      · exact ⟨rfl, rfl, rfl, rfl⟩
      · exact ⟨rfl, rfl, rfl, rfl⟩
      · exact ih (Fd.pipeRead i0) (i0 + 1) e h

lemma countP_stage_mkPipe (bg : Bool) : ∀ (cmds : List Command) (r0 : Fd) (i0 : Nat),
    (stageEvents bg cmds r0 i0).countP isMkPipeEv = cmds.length - 1 := by
  intro cmds
  induction cmds with
  | nil => intro r0 i0; rfl
  | cons c cs ih =>
    intro r0 i0
    cases cs with
    | nil => rfl
    | cons c2 cs2 =>
      simp only [stageEvents, List.countP_cons, ih (Fd.pipeRead i0) (i0 + 1)]
      simp [isMkPipeEv]

lemma closesOf_stage (bg : Bool) : ∀ (cs : List Command) (c : Command) (r0 : Fd) (i0 : Nat),
    closesOf (stageEvents bg (c :: cs) r0 i0) = r0 :: pipeCloses i0 cs.length := by
  intro cs
  induction cs with
  | nil => intro c r0 i0; rfl
  | cons c2 cs2 ih =>
    intro c r0 i0
    simp [stageEvents, closesOf, pipeCloses, ih c2]

lemma pipeCloses_mem : ∀ (m i0 : Nat) (f : Fd), f ∈ pipeCloses i0 m →
    ∃ j, i0 ≤ j ∧ j < i0 + m ∧ (f = .pipeWrite j ∨ f = .pipeRead j) := by
  intro m
  induction m with
  | zero => intro i0 f hf; simp [pipeCloses] at hf
  | succ m ih =>
    intro i0 f hf
    simp only [pipeCloses, List.mem_cons] at hf
    rcases hf with rfl | rfl | h
    · exact ⟨i0, le_refl _, by omega, Or.inl rfl⟩
    · exact ⟨i0, le_refl _, by omega, Or.inr rfl⟩
    · obtain ⟨j, h1, h2, h3⟩ := ih (i0 + 1) f h
      exact ⟨j, by omega, by omega, h3⟩

lemma pipeCloses_nodup : ∀ (m i0 : Nat), (pipeCloses i0 m).Nodup := by
  intro m
  induction m with
  | zero => intro i0; simp [pipeCloses]
  | succ m ih =>
    intro i0
    simp only [pipeCloses, List.nodup_cons]
    refine ⟨?_, ?_, ih (i0 + 1)⟩
    · simp only [List.mem_cons]
      rintro (h | h)
      · exact Fd.noConfusion h
      · obtain ⟨j, h1, _, h3⟩ := pipeCloses_mem m (i0 + 1) _ h
        rcases h3 with h3 | h3
        · cases h3; omega
        · exact Fd.noConfusion h3
    · intro h
      obtain ⟨j, h1, _, h3⟩ := pipeCloses_mem m (i0 + 1) _ h
      rcases h3 with h3 | h3
      · exact Fd.noConfusion h3
      · cases h3; omega

lemma handedClosed_stage (bg : Bool) : ∀ (cs : List Command) (c : Command) (r0 : Fd)
    (i0 : Nat) (rest : List Event), handedClosed rest = true →
    handedClosed (stageEvents bg (c :: cs) r0 i0 ++ rest) = true := by
  intro cs
  induction cs with
  | nil =>
    intro c r0 i0 rest h
    simp [stageEvents, handedClosed, h]
  | cons c2 cs2 ih =>
    intro c r0 i0 rest h
    simp only [stageEvents, List.cons_append, handedClosed]
    simpa [handedClosed] using ih c2 (Fd.pipeRead i0) (i0 + 1) rest h

lemma spawnsBlocked_stage (bg : Bool) : ∀ (cmds : List Command) (r0 : Fd) (i0 : Nat)
    (rest : List Event),
    spawnsBlocked true (stageEvents bg cmds r0 i0 ++ rest) = spawnsBlocked true rest := by
  intro cmds
  induction cmds with
  | nil => intro r0 i0 rest; rfl
  | cons c cs ih =>
    intro r0 i0 rest
    cases cs with
    | nil => simp [stageEvents, spawnsBlocked]
    | cons c2 cs2 => simp [stageEvents, spawnsBlocked, ih]

lemma countP_stage_zero (bg : Bool) (p : Event → Bool) (cmds : List Command) (r0 : Fd) (i0 : Nat)
    (h : ∀ e ∈ stageEvents bg cmds r0 i0, p e = false) :
    (stageEvents bg cmds r0 i0).countP p = 0 := by
  rw [List.countP_eq_zero]
  intro e he
  simp [h e he]

lemma wiring_get : ∀ (cmds : List Command) (r0 : Fd) (i0 k : Nat) (h : k < cmds.length),
    (wiring r0 i0 cmds).get? k = some (cmds.get ⟨k, h⟩,
      (if k = 0 then r0 else Fd.pipeRead (i0 + k - 1)),
      (if k + 1 = cmds.length then none else some (i0 + k))) := by
  intro cmds
  induction cmds with
  | nil => intro r0 i0 k h; simp at h
  | cons c cs ih =>
    intro r0 i0 k h
    cases cs with
    | nil =>
      have hk : k = 0 := Nat.lt_one_iff.mp (by simpa using h)
      subst hk
      rfl
    | cons c2 cs2 =>
      cases k with
      | zero =>
        have hne : (0 : Nat) + 1 ≠ (c :: c2 :: cs2).length := by
          simp only [List.length_cons]
          omega
        simp [wiring, hne]
      | succ m =>
        have hm : m < (c2 :: cs2).length := by simpa using h
        have hw : wiring r0 i0 (c :: c2 :: cs2) =
            (c, r0, some i0) :: wiring (Fd.pipeRead i0) (i0 + 1) (c2 :: cs2) := rfl
        rw [hw, List.get?_cons_succ, ih (Fd.pipeRead i0) (i0 + 1) m hm]
        have e0 : (c :: c2 :: cs2).get ⟨m + 1, h⟩ = (c2 :: cs2).get ⟨m, hm⟩ := rfl
        have e1 : (if m = 0 then Fd.pipeRead i0 else Fd.pipeRead (i0 + 1 + m - 1)) =
            Fd.pipeRead (i0 + (m + 1) - 1) := by
          by_cases hm0 : m = 0
          · subst hm0; simp
          · rw [if_neg hm0]
            congr 1
            omega
        have e2 : (if m + 1 = (c2 :: cs2).length then (none : Option Nat)
              else some (i0 + 1 + m)) =
            (if m + 1 + 1 = (c :: c2 :: cs2).length then none else some (i0 + (m + 1))) := by
          simp only [List.length_cons]
          have hadd : i0 + 1 + m = i0 + (m + 1) := by omega
          rw [hadd]
          exact if_congr (by omega) rfl rfl
        rw [e0, e1, e2]
        simp

/-- Claim C2: a single-command, redirection-free, foreground pipeline whose
program name is a registered builtin runs the builtin synchronously in-process
with the command's argument vector (printing the diagnostic on a reported
failure and continuing), and its trace contains no `spawn` — no OS process is
created.  The same command with a redirection attached, or flagged background,
takes the general path, which forks. -/
theorem C2_builtin_fast_path (B : BuiltinRegistry) (c : Command) (f : List String → Bool)
    (r : Redir) (hB : B (c.args.headD "") = some f) (hr : c.redirs = []) :
    runPipeline B ⟨[c], false⟩ =
      Event.builtinCall (c.args.headD "") c.args ::
        (if f c.args then []
         else [Event.diag ("Builtin " ++ c.args.headD "" ++ " error.")]) ∧
    (∀ e ∈ runPipeline B ⟨[c], false⟩, isSpawnEv e = false) ∧
    (∃ e ∈ runPipeline B ⟨[{c with redirs := [r]}], false⟩, isSpawnEv e = true) ∧
    (∃ e ∈ runPipeline B ⟨[c], true⟩, isSpawnEv e = true) := by
  have h1 : runPipeline B ⟨[c], false⟩ =
      Event.builtinCall (c.args.headD "") c.args ::
        (if f c.args then []
         else [Event.diag ("Builtin " ++ c.args.headD "" ++ " error.")]) := by
    have hB2 : B (c.args.head?.getD "") = some f := by simpa using hB
    simp [runPipeline, hr, hB2]
  refine ⟨h1, ?_, ?_, ?_⟩
  · intro e he
    rw [h1] at he
    by_cases hf : f c.args
    · simp [hf] at he
      subst he
      rfl
    · simp [hf] at he
      rcases he with rfl | rfl <;> rfl
  · have h2 : runPipeline B ⟨[{c with redirs := [r]}], false⟩ =
        generalPathEvents false [{c with redirs := [r]}] := by
      simp [runPipeline]
    refine ⟨.spawn {c with redirs := [r]} .dupIn none false, ?_, rfl⟩
    rw [h2]
    simp [generalPathEvents, stageEvents]
  · have h3 : runPipeline B ⟨[c], true⟩ = generalPathEvents true [c] := by
      simp [runPipeline]
    refine ⟨.spawn c .dupIn none true, ?_, rfl⟩
    rw [h3]
    simp [generalPathEvents, stageEvents]

/-- A builtin registry with a single registered name, used by witnesses. -/
def sampleHandler : List String → Bool := fun _ => false

/-- A registry knowing only the name `"bex"`, whose handler reports failure. -/
def sampleRegistry : BuiltinRegistry := fun s => if s == "bex" then some sampleHandler else none

/-- Witness for C2 at the registered name `"bex"` (whose handler reports a
builtin error, so the diagnostic is printed): in-process invocation with no
fork, and a fork once a redirection is attached. -/
theorem C2_builtin_fast_path_w :
    runPipeline sampleRegistry ⟨[⟨["bex"], []⟩], false⟩ =
      [Event.builtinCall "bex" ["bex"], Event.diag "Builtin bex error."] ∧
    (runPipeline sampleRegistry ⟨[⟨["bex"], [⟨.rout, "o"⟩]⟩], false⟩).any isSpawnEv = true := by
  have h := C2_builtin_fast_path sampleRegistry ⟨["bex"], []⟩ sampleHandler ⟨.rout, "o"⟩ rfl rfl
  refine ⟨h.1.trans (by rfl), ?_⟩
  rcases h.2.2.1 with ⟨e, he, hs⟩
  exact List.any_eq_true.mpr ⟨e, he, hs⟩

/-- Claim C3: on the general path for a pipeline of `n = (c :: cs).length`
commands, the shell's standard input is duplicated exactly once, before the
chain is built; exactly `n−1` pipes are created; the launched stages are
exactly the pipeline's commands in order, stage `k` reading the previous pipe's
read end (the duplicated input for `k = 0`) and writing pipe `k`'s write end,
the last stage with no pipe (it keeps the shell's standard output); every
descriptor handed to a child is closed in the parent immediately after the
handoff; the parent closes exactly the duplicated input and the two ends of
each pipe, each exactly once, and never the shell's own standard input or
standard output descriptors. -/
theorem C3_pipeline_wiring (bg : Bool) (c : Command) (cs : List Command) :
    spawnsOf (generalPathEvents bg (c :: cs)) = wiring Fd.dupIn 0 (c :: cs) ∧
    (∀ k, ∀ h : k < (c :: cs).length, (wiring Fd.dupIn 0 (c :: cs)).get? k =
      some ((c :: cs).get ⟨k, h⟩,
        (if k = 0 then Fd.dupIn else Fd.pipeRead (k - 1)),
        (if k + 1 = (c :: cs).length then none else some k))) ∧
    (generalPathEvents bg (c :: cs)).head? = some .dupStdin ∧
    (generalPathEvents bg (c :: cs)).countP isDupEv = 1 ∧
    (generalPathEvents bg (c :: cs)).countP isMkPipeEv = (c :: cs).length - 1 ∧
    handedClosed (generalPathEvents bg (c :: cs)) = true ∧
    closesOf (generalPathEvents bg (c :: cs)) = Fd.dupIn :: pipeCloses 0 cs.length ∧
    Fd.stdin ∉ closesOf (generalPathEvents bg (c :: cs)) ∧
    Fd.stdout ∉ closesOf (generalPathEvents bg (c :: cs)) ∧
    (closesOf (generalPathEvents bg (c :: cs))).Nodup := by
  have hcl : closesOf (generalPathEvents bg (c :: cs)) = Fd.dupIn :: pipeCloses 0 cs.length := by
    simp only [generalPathEvents, closesOf, closesOf_append, closesOf_stage bg cs c]
    cases bg <;> simp [closesOf]
  refine ⟨?_, ?_, rfl, ?_, ?_, ?_, hcl, ?_, ?_, ?_⟩
  · simp only [generalPathEvents, spawnsOf, spawnsOf_append, spawnsOf_stage bg (c :: cs)]
    cases bg <;> simp [spawnsOf]
  · intro k h
    have := wiring_get (c :: cs) Fd.dupIn 0 k h
    simpa using this
  · simp only [generalPathEvents, List.countP_cons, List.countP_append]
    rw [countP_stage_zero bg isDupEv (c :: cs) Fd.dupIn 0
      (fun e he => (stage_kinds bg (c :: cs) Fd.dupIn 0 e he).2.2.2)]
    cases bg <;> simp [isDupEv]
  · simp only [generalPathEvents, List.countP_cons, List.countP_append,
      countP_stage_mkPipe bg (c :: cs) Fd.dupIn 0]
    cases bg <;> simp [isMkPipeEv]
  · have htail : handedClosed ((if bg then [] else [Event.waitFg]) ++ [Event.unblockChld]) = true := by
      cases bg <;> rfl
    have := handedClosed_stage bg cs c Fd.dupIn 0
      ((if bg then [] else [Event.waitFg]) ++ [Event.unblockChld]) htail
    simpa [generalPathEvents, handedClosed] using this
  · rw [hcl]
    simp only [List.mem_cons]
    rintro (h | h)
    · exact Fd.noConfusion h
    · obtain ⟨j, _, _, h3⟩ := pipeCloses_mem cs.length 0 _ h
      rcases h3 with h3 | h3 <;> exact Fd.noConfusion h3
  · rw [hcl]
    simp only [List.mem_cons]
    rintro (h | h)
    · exact Fd.noConfusion h
    · obtain ⟨j, _, _, h3⟩ := pipeCloses_mem cs.length 0 _ h
      rcases h3 with h3 | h3 <;> exact Fd.noConfusion h3
  · rw [hcl]
    refine List.nodup_cons.mpr ⟨?_, pipeCloses_nodup cs.length 0⟩
    intro h
    obtain ⟨j, _, _, h3⟩ := pipeCloses_mem cs.length 0 _ h
    rcases h3 with h3 | h3 <;> exact Fd.noConfusion h3

/-- Witness for C3 at a three-command foreground pipeline: stage 1 reads pipe
0's read end and writes pipe 1's write end, the spawn list matches the wiring,
handed descriptors are closed immediately, and the closes are the duplicated
input plus both ends of the two pipes. -/
theorem C3_pipeline_wiring_w :
    spawnsOf (generalPathEvents false [⟨["a"], []⟩, ⟨["b"], []⟩, ⟨["c"], []⟩]) =
      [(⟨["a"], []⟩, Fd.dupIn, some 0), (⟨["b"], []⟩, Fd.pipeRead 0, some 1),
       (⟨["c"], []⟩, Fd.pipeRead 1, none)] ∧
    (wiring Fd.dupIn 0 [⟨["a"], []⟩, ⟨["b"], []⟩, ⟨["c"], []⟩]).get? 1 =
      some (⟨["b"], []⟩, Fd.pipeRead 0, some 1) ∧
    handedClosed (generalPathEvents false [⟨["a"], []⟩, ⟨["b"], []⟩, ⟨["c"], []⟩]) = true ∧
    closesOf (generalPathEvents false [⟨["a"], []⟩, ⟨["b"], []⟩, ⟨["c"], []⟩]) =
      [Fd.dupIn, Fd.pipeWrite 0, Fd.pipeRead 0, Fd.pipeWrite 1, Fd.pipeRead 1] := by
  have h := C3_pipeline_wiring false ⟨["a"], []⟩ [⟨["b"], []⟩, ⟨["c"], []⟩]
  refine ⟨h.1.trans (by decide), (h.2.1 1 (by decide)).trans (by decide),
    h.2.2.2.2.2.1, h.2.2.2.2.2.2.1.trans (by decide)⟩

/-- Claim C4: on the general path, SIGCHLD delivery is blocked before stage 0
is launched and every `spawn` (which includes registering the child) and the
foreground wait happen while it is blocked; the trace ends with the unblock;
a foreground pipeline waits for its children and unblocks only afterwards
(the trace ends `waitFg, unblockChld`), while a background pipeline performs
no wait at all and unblocks right after the last stage's launch and the final
parent-side close. -/
theorem C4_sigchld_block_span (bg : Bool) (c : Command) (cs : List Command) :
    generalPathEvents bg (c :: cs) =
      .dupStdin :: .blockChld ::
        (stageEvents bg (c :: cs) .dupIn 0 ++
          (if bg then [] else [.waitFg]) ++ [.unblockChld]) ∧
    (∀ e ∈ stageEvents bg (c :: cs) .dupIn 0,
      isBlockEv e = false ∧ isUnblockEv e = false ∧ isWaitEv e = false) ∧
    spawnsBlocked false (generalPathEvents bg (c :: cs)) = true ∧
    (generalPathEvents bg (c :: cs)).getLast? = some .unblockChld ∧
    (generalPathEvents bg (c :: cs)).countP isWaitEv = (if bg then 0 else 1) ∧
    generalPathEvents false (c :: cs) =
      (.dupStdin :: .blockChld :: stageEvents false (c :: cs) .dupIn 0) ++
        [.waitFg, .unblockChld] := by
  refine ⟨rfl, ?_, ?_, ?_, ?_, by simp [generalPathEvents]⟩
  · intro e he
    have := stage_kinds bg (c :: cs) Fd.dupIn 0 e he
    exact ⟨this.1, this.2.1, this.2.2.1⟩
  · have hs : spawnsBlocked false (generalPathEvents bg (c :: cs)) =
        spawnsBlocked true ((if bg then [] else [Event.waitFg]) ++ [Event.unblockChld]) := by
      simp only [generalPathEvents, spawnsBlocked, List.append_assoc]
      exact spawnsBlocked_stage bg (c :: cs) Fd.dupIn 0 _
    rw [hs]
    cases bg <;> rfl
  · have : generalPathEvents bg (c :: cs) =
        [Event.dupStdin, Event.blockChld] ++
          (stageEvents bg (c :: cs) Fd.dupIn 0 ++
            (if bg then [] else [Event.waitFg]) ++ [Event.unblockChld]) := rfl
    rw [this, List.getLast?_append, List.getLast?_append]
    rfl
  · simp only [generalPathEvents, List.countP_cons, List.countP_append]
    rw [countP_stage_zero bg isWaitEv (c :: cs) Fd.dupIn 0
      (fun e he => (stage_kinds bg (c :: cs) Fd.dupIn 0 e he).2.2.1)]
    cases bg <;> simp [isWaitEv]

/-- Witness for C4 at two-command pipelines, foreground and background. -/
theorem C4_sigchld_block_span_w :
    spawnsBlocked false (generalPathEvents false [⟨["a"], []⟩, ⟨["b"], []⟩]) = true ∧
    (generalPathEvents true [⟨["a"], []⟩, ⟨["b"], []⟩]).countP isWaitEv = 0 ∧
    (generalPathEvents false [⟨["a"], []⟩, ⟨["b"], []⟩]).countP isWaitEv = 1 ∧
    (generalPathEvents true [⟨["a"], []⟩, ⟨["b"], []⟩]).getLast? = some .unblockChld := by
  have hf := C4_sigchld_block_span false ⟨["a"], []⟩ [⟨["b"], []⟩]
  have hb := C4_sigchld_block_span true ⟨["a"], []⟩ [⟨["b"], []⟩]
  exact ⟨hf.2.2.1, hb.2.2.2.2.1.trans (by decide), hf.2.2.2.2.1.trans (by decide),
    hb.2.2.2.1⟩

lemma countP_wait_general (bg : Bool) (cmds : List Command) :
    (generalPathEvents bg cmds).countP isWaitEv = if bg then 0 else 1 := by
  simp only [generalPathEvents, List.countP_cons, List.countP_append]
  rw [countP_stage_zero bg isWaitEv cmds Fd.dupIn 0
    (fun e he => (stage_kinds bg cmds Fd.dupIn 0 e he).2.2.1)]
  cases bg <;> simp [isWaitEv]

lemma general_fg_shape (cmds : List Command) :
    generalPathEvents false cmds =
      (Event.dupStdin :: Event.blockChld :: stageEvents false cmds Fd.dupIn 0) ++
        [Event.waitFg, Event.unblockChld] := by
  simp [generalPathEvents]

lemma runPipeline_fast_eq (B : BuiltinRegistry) (c : Command) (f : List String → Bool)
    (hB : B (c.args.headD "") = some f) (hr : c.redirs = []) :
    runPipeline B ⟨[c], false⟩ =
      Event.builtinCall (c.args.headD "") c.args ::
        (if f c.args then []
         else [Event.diag ("Builtin " ++ c.args.headD "" ++ " error.")]) := by
  have hB2 : B (c.args.head?.getD "") = some f := by simpa using hB
  simp [runPipeline, hr, hB2]

lemma runPipeline_none_eq (B : BuiltinRegistry) (c : Command)
    (hB : B (c.args.headD "") = none) :
    runPipeline B ⟨[c], false⟩ = generalPathEvents false [c] := by
  have hB2 : B (c.args.head?.getD "") = none := by simpa using hB
  by_cases hred : c.redirs.isEmpty <;> simp [runPipeline, hB2, hred]

lemma runPipeline_redir_eq (B : BuiltinRegistry) (c : Command) (bg : Bool)
    (h : c.redirs.isEmpty = false) :
    runPipeline B ⟨[c], bg⟩ = generalPathEvents bg [c] := by
  simp [runPipeline, h]

lemma runPipeline_bg_eq (B : BuiltinRegistry) (c : Command) :
    runPipeline B ⟨[c], true⟩ = generalPathEvents true [c] := by
  simp [runPipeline]

lemma runPipeline_multi_eq (B : BuiltinRegistry) (c c2 : Command) (cs : List Command)
    (bg : Bool) :
    runPipeline B ⟨c :: c2 :: cs, bg⟩ = generalPathEvents bg (c :: c2 :: cs) := by
  simp [runPipeline]

lemma runPipeline_cases (B : BuiltinRegistry) (p : Pipeline) :
    runPipeline B p = generalPathEvents p.background p.commands ∨
    (p.background = false ∧
      ∀ e ∈ runPipeline B p, isSpawnEv e = false ∧ isWaitEv e = false) := by
  obtain ⟨cmds, bg⟩ := p
  rcases cmds with _ | ⟨c, cs⟩
  · left; rfl
  rcases cs with _ | ⟨c2, cs2⟩
  · cases bg
    · rcases hred : c.redirs.isEmpty with _ | _
      · left; exact runPipeline_redir_eq B c false hred
      · rcases hB : B (c.args.headD "") with _ | f
        · left; exact runPipeline_none_eq B c hB
        · right
          refine ⟨rfl, ?_⟩
          intro e he
          rw [runPipeline_fast_eq B c f hB (List.isEmpty_iff.mp hred)] at he
          rcases hfc : f c.args with _ | _
          · rw [hfc] at he
            simp at he
            rcases he with rfl | rfl <;> exact ⟨rfl, rfl⟩
          · rw [hfc] at he
            simp at he
            subst he
            exact ⟨rfl, rfl⟩
    · left; exact runPipeline_bg_eq B c
  · left; exact runPipeline_multi_eq B c c2 cs2 bg

/-- Claim C9: `handleLine` runs the validated pipelines strictly in order —
the line's trace is the first pipeline's full `runPipeline` trace followed by
the rest — and each single `runPipeline` trace performs at most one
foreground wait, so at most one foreground pipeline is ever being waited on;
a background pipeline performs no wait at all, and a foreground pipeline
either runs entirely in-process (builtin, no fork) or ends with its
synchronous wait for all children followed only by the SIGCHLD unblock, so it
is complete before the next pipeline starts. -/
theorem C9_pipelines_in_order (B : BuiltinRegistry) (p : Pipeline) (ps : List Pipeline) :
    lineTrace B (p :: ps) = runPipeline B p ++ lineTrace B ps ∧
    (runPipeline B p).countP isWaitEv ≤ 1 ∧
    (p.background = true → (runPipeline B p).countP isWaitEv = 0) ∧
    (p.background = false →
      (∀ e ∈ runPipeline B p, isSpawnEv e = false) ∨
      ∃ pre, runPipeline B p = pre ++ [Event.waitFg, Event.unblockChld]) := by
  refine ⟨rfl, ?_, ?_, ?_⟩
  · rcases runPipeline_cases B p with h | ⟨_, h⟩
    · rw [h, countP_wait_general]
      cases p.background <;> simp
    · rw [List.countP_eq_zero.mpr (fun e he => by simp [(h e he).2])]
      omega
  · intro hbg
    rcases runPipeline_cases B p with h | ⟨hbg2, _⟩
    · rw [h, hbg, countP_wait_general]
      rfl
    · rw [hbg] at hbg2
      exact Bool.noConfusion hbg2
  · intro hbg
    rcases runPipeline_cases B p with h | ⟨_, h⟩
    · right
      rw [h, hbg, general_fg_shape]
      exact ⟨_, rfl⟩
    · exact Or.inl (fun e he => (h e he).1)

/-- Witness for C9: a two-pipeline line (foreground `a`, background `b`);
the line trace is sequential, the background pipeline performs no wait, and
the foreground one at most one. -/
theorem C9_pipelines_in_order_w :
    lineTrace sampleRegistry [⟨[⟨["a"], []⟩], false⟩, ⟨[⟨["b"], []⟩], true⟩] =
      runPipeline sampleRegistry ⟨[⟨["a"], []⟩], false⟩ ++
        lineTrace sampleRegistry [⟨[⟨["b"], []⟩], true⟩] ∧
    (runPipeline sampleRegistry ⟨[⟨["b"], []⟩], true⟩).countP isWaitEv = 0 ∧
    (runPipeline sampleRegistry ⟨[⟨["a"], []⟩], false⟩).countP isWaitEv ≤ 1 := by
  have h1 := C9_pipelines_in_order sampleRegistry ⟨[⟨["a"], []⟩], false⟩ [⟨[⟨["b"], []⟩], true⟩]
  have h2 := C9_pipelines_in_order sampleRegistry ⟨[⟨["b"], []⟩], true⟩ []
  exact ⟨h1.1, h2.2.2.1 rfl, h1.2.1⟩

/-- Claim C10: end-of-input is the only read result on which `handleLine`
terminates the shell, and it does so with the success status, scheduling no
pipeline for execution; a malformed-input signal or any parsed line (valid or
not) returns control to the read-execute loop. -/
theorem C10_eof_exits_success :
    handleLine .eof = .exitSuccess ∧
    ∀ r : ReadResult, handleLine r = .exitSuccess ↔ r = .eof := by
  refine ⟨rfl, ?_⟩
  intro r
  constructor
  · intro h
    cases r with
    | eof => rfl
    | ioErr => exact HandleOutcome.noConfusion h
    | line parsed =>
      rw [handleLine] at h
      rcases hrm : removeEmptyPipelines parsed with _ | ps <;> rw [hrm] at h
      · exact HandleOutcome.noConfusion h
      · exact HandleOutcome.noConfusion h
  · intro h
    subst h
    rfl

/-- Witness for C10: a malformed-input signal does not terminate the shell. -/
theorem C10_eof_exits_success_w :
    (handleLine .ioErr = .exitSuccess ↔ ReadResult.ioErr = .eof) ∧
    handleLine .eof = .exitSuccess :=
  ⟨C10_eof_exits_success.2 .ioErr, C10_eof_exits_success.1⟩

/-! ## The child side of `runCommand`: signals, descriptor wiring, redirections

The code the child runs between `fork()` and `execvp()` (mshell.c lines
107-144) is modelled as a pure computation over an environment (`World`)
describing the file system and the executable search path. -/

/-- Signal dispositions as visible to one process. -/
inductive Disposition
  | dfl
  | ign
  | hnd
  deriving DecidableEq

/-- The signal-related state of one process: the SIGINT and SIGCHLD
dispositions and whether SIGCHLD delivery is blocked. -/
structure SigState where
  sigint : Disposition
  sigchld : Disposition
  chldBlocked : Bool
  deriving DecidableEq

/-- The shell's own signal state as installed by `main` (mshell.c lines
296-307): SIGINT ignored (`SIG_IGN`), SIGCHLD handled by `sigchldHandler`,
SIGCHLD delivery unblocked outside pipeline launches; the previous actions are
saved in `default_sigint_action` / `default_sigchld_action` — the pre-shell
defaults that children are reset to. -/
def shellSigState : SigState :=
  { sigint := .ign, sigchld := .hnd, chldBlocked := false }

/-- One child-side signal-setup action of `runCommand` (mshell.c lines
107-113): `newSession` is `setsid()`, `unblockChld` is `unblockChildSignal()`
(modelled from the spec for `childmanager.c`, which is not under `src/`: it
unblocks delivery of the termination notification), and the two resets install
the saved pre-shell default actions. -/
inductive SigOp
  | newSession
  | unblockChld
  | setIntDefault
  | setChldDefault
  deriving DecidableEq

def applySigOp (s : SigState) : SigOp → SigState
  | .newSession => s
  | .unblockChld => { s with chldBlocked := false }
  | .setIntDefault => { s with sigint := .dfl }
  | .setChldDefault => { s with sigchld := .dfl }

/-- The child-side setup sequence of `runCommand` (mshell.c lines 107-113), in
program order: `setsid()` first when the pipeline is background, then
`unblockChildSignal()`, then the SIGINT and SIGCHLD resets to the saved
pre-shell defaults. -/
def childSigOps (bg : Bool) : List SigOp :=
  (if bg then [.newSession] else []) ++ [.unblockChld, .setIntDefault, .setChldDefault]

/-- The signal state a child ends up with after the setup sequence, starting
from whatever state it inherited from the shell at `fork()`. -/
def childSigState (inherited : SigState) (bg : Bool) : SigState :=
  (childSigOps bg).foldl applySigOp inherited

/-- Claim C8: whatever signal state the child inherits at `fork()` (in
particular the shell's state with SIGINT ignored, SIGCHLD handled, and SIGCHLD
blocked during pipeline launch), after the child-side setup both dispositions
are the pre-shell defaults and SIGCHLD delivery is unblocked, so no child
inherits the shell's blocked/ignored signal state; for a background pipeline
`setsid()` is the first action; and the shell process itself keeps SIGINT
ignored. -/
theorem C8_child_signal_reset (inherited : SigState) (bg : Bool) :
    childSigState inherited bg = { sigint := .dfl, sigchld := .dfl, chldBlocked := false } ∧
    (childSigOps true).head? = some .newSession ∧
    childSigOps false = [.unblockChld, .setIntDefault, .setChldDefault] ∧
    shellSigState.sigint = .ign := by
  obtain ⟨a, b, c⟩ := inherited
  cases bg <;> exact ⟨rfl, rfl, rfl, rfl⟩

/-- How a file is opened by `addRedirs` (mshell.c lines 71-87): `readOnly` is
`O_RDONLY`, `writeTrunc` is `O_WRONLY | O_CREAT | O_TRUNC`, `writeAppend` is
`O_WRONLY | O_CREAT | O_APPEND`. -/
inductive OpenKind
  | readOnly
  | writeTrunc
  | writeAppend
  deriving DecidableEq

/-- POSIX permission bit `S_IRUSR` (owner read). -/
def S_IRUSR : Nat := 0o400

/-- POSIX permission bit `S_IWUSR` (owner write). -/
def S_IWUSR : Nat := 0o200

/-- POSIX permission bit `S_IRGRP` (group read). -/
def S_IRGRP : Nat := 0o40

/-- POSIX permission bit `S_IROTH` (other read). -/
def S_IROTH : Nat := 0o4

/-- The creation mode `addRedirs` passes to `open` for both output redirection
kinds (mshell.c line 72): `S_IRUSR | S_IWUSR | S_IRGRP | S_IROTH`. -/
def redirMode : Nat := S_IRUSR ||| S_IWUSR ||| S_IRGRP ||| S_IROTH

/-- A descriptor as seen inside the child: either one wired in by the parent
(`read_fd` or a pipe end, symbolic `Fd`), or one returned by `open()` for a
redirection target in `addRedirs`. -/
inductive ChildFd
  | wired (f : Fd)
  | opened (name : String) (k : OpenKind)
  deriving DecidableEq

/-- The environment a child runs in: which files exist, are readable, can be
opened for writing/creation, which program names `execvp` resolves on the
search path and can execute, and which of the child's `dup2` / `close` calls
succeed (`dup2Ok src slot` is the outcome of `dup2(src, slot)` for slot 0 or
1; `closeOk` the outcome of `close`). -/
structure World where
  fileKnown : String → Bool
  fileReadable : String → Bool
  fileWritable : String → Bool
  progFound : String → Bool
  progExecutable : String → Bool
  dup2Ok : ChildFd → Nat → Bool
  closeOk : ChildFd → Bool

/-- The failure behaviour of `openFile` (mshell.c lines 52-69) for each open
kind, under the POSIX semantics of the flags used by `addRedirs`: `O_RDONLY`
fails with `ENOENT` on a missing file and `EACCES` on an unreadable one; the
two `O_CREAT` write kinds fail with `EACCES` when the target cannot be opened
for writing.  `some d` is the single diagnostic line `openFile` prints before
`exit(EXIT_FAILURE)`; `none` is a successful open. -/
def openFile (w : World) (name : String) : OpenKind → Option String
  | .readOnly =>
    if !w.fileKnown name then some (name ++ ": no such file or directory")
    else if !w.fileReadable name then some (name ++ ": permission denied")
    else none
  | .writeTrunc =>
    if !w.fileWritable name then some (name ++ ": permission denied") else none
  | .writeAppend =>
    if !w.fileWritable name then some (name ++ ": permission denied") else none

/-- `closeFileDescriptor` (mshell.c lines 34-39): `close(fd)`, and on failure
one `perror` diagnostic and `exit(EXIT_FAILURE)` (modelled as `Except.error`
with the message `perror` prefixes). -/
def closeFileDescriptor (w : World) (f : ChildFd) : Except String Unit :=
  if !w.closeOk f then .error "close() failed" else .ok ()

/-- `moveFileDescriptor` (mshell.c lines 41-50): `dup2(src, slot)` followed by
`closeFileDescriptor(src)`; a `dup2` failure prints `dup2() failed` and exits
with `EXIT_FAILURE`.  The `from == to` early return never fires in the child:
`src` is always a freshly created descriptor (a `dup`/`pipe`/`open` result,
hence ≥ 3 while the shell's 0-2 are occupied) and `slot` is 0 or 1. -/
def moveFileDescriptor (w : World) (src : ChildFd) (slot : Nat) : Except String Unit :=
  if !w.dup2Ok src slot then .error "dup2() failed" else closeFileDescriptor w src

/-- What a child's standard stream is bound to: a descriptor wired by the
parent (`fd`), or a file opened by a redirection, with its open kind. -/
inductive StreamSrc
  | fd (f : Fd)
  | file (name : String) (k : OpenKind)
  deriving DecidableEq

/-- The child's two standard-stream bindings. -/
structure ChildFds where
  stdinSrc : StreamSrc
  stdoutSrc : StreamSrc
  deriving DecidableEq

/-- `addRedirs` (mshell.c lines 71-87) on one `redir`: an input redirection
opens the file read-only and moves it onto standard input with
`moveFileDescriptor`; an output-truncate or output-append redirection opens
the file with the corresponding write kind and mode `redirMode` and moves it
onto standard output.  A failed open prints its diagnostic and the child
exits, and so does a failed `dup2`/`close` inside the move (modelled as
`Except.error` carrying the single diagnostic). -/
def addRedirs (w : World) (r : Redir) (st : ChildFds) : Except String ChildFds :=
  match r.kind with
  | .rin =>
    match openFile w r.filename .readOnly with
    | some d => .error d
    | none =>
      match moveFileDescriptor w (.opened r.filename .readOnly) 0 with
      | .error d => .error d
      | .ok _ => .ok { st with stdinSrc := .file r.filename .readOnly }
  | .rout =>
    match openFile w r.filename .writeTrunc with
    | some d => .error d
    | none =>
      match moveFileDescriptor w (.opened r.filename .writeTrunc) 1 with
      | .error d => .error d
      | .ok _ => .ok { st with stdoutSrc := .file r.filename .writeTrunc }
  | .rappend =>
    match openFile w r.filename .writeAppend with
    | some d => .error d
    | none =>
      match moveFileDescriptor w (.opened r.filename .writeAppend) 1 with
      | .error d => .error d
      | .ok _ => .ok { st with stdoutSrc := .file r.filename .writeAppend }

/-- The redirection loop of `runCommand` (mshell.c lines 121-127): apply the
command's redirections in listed order, stopping at the first failure. -/
def applyRedirs (w : World) : ChildFds → List Redir → Except String ChildFds
  | st, [] => .ok st
  | st, r :: rs =>
    match addRedirs w r st with
    | .error d => .error d
    | .ok st2 => applyRedirs w st2 rs

/-- Modelled from the spec: `EXEC_FAILURE` is defined in `config.h`, which is
not under `src/`; the spec (§4.3) calls it "a distinguished non-zero status
reserved for launch failures", so it is modelled as distinct from the generic
C `EXIT_FAILURE` status that `openFile`, `moveFileDescriptor` and
`closeFileDescriptor` exit with. -/
inductive ExitStatus
  | execFailure
  | exitFailure
  deriving DecidableEq

/-- How a launched child ends, short of being killed: control transferred to
the program via `execvp` with the final stream bindings, or `exit` after
printing the listed diagnostics. -/
inductive ChildExit
  | execed (prog : String) (argv : List String) (fds : ChildFds)
  | exited (diags : List String) (status : ExitStatus)
  deriving DecidableEq

/-- The child's stream bindings right after the parent-driven wiring of
`runCommand` (mshell.c lines 115-119): `moveFileDescriptor(read_fd, STDIN)`,
and, when a pipe was supplied, `moveFileDescriptor(pipe_fds[1], STDOUT)` (the
pipe's read end is closed); with no pipe the child keeps the shell's standard
output. -/
def initFds (readFd : Fd) (pipeIdx : Option Nat) : ChildFds :=
  { stdinSrc := .fd readFd,
    stdoutSrc := match pipeIdx with
      | some i => .fd (.pipeWrite i)
      | none => .fd .stdout }

/-- The pipe wiring of the child branch (mshell.c lines 116-119): when a pipe
was supplied, move its write end onto standard output and close its unused
read end; each descriptor operation may fail, printing its diagnostic and
exiting with `EXIT_FAILURE`. -/
def wirePipe (w : World) (pipeIdx : Option Nat) : Except String Unit :=
  match pipeIdx with
  | some i =>
    match moveFileDescriptor w (.wired (.pipeWrite i)) 1 with
    | .error d => .error d
    | .ok _ => closeFileDescriptor w (.wired (.pipeRead i))
  | none => .ok ()

/-- The child branch of `runCommand` after the signal setup (mshell.c lines
115-144): `moveFileDescriptor(read_fd, STDIN_FILENO)`, the pipe wiring, then
the redirections in listed order — any descriptor-operation or open failure
prints one diagnostic and exits with the generic `EXIT_FAILURE` — then
`execvp` the program named by `args[0]` with the full argument vector; if
`execvp` returns, print one diagnostic naming the program (`ENOENT`/`EACCES`/
other) and exit with `EXEC_FAILURE`. -/
def runCommandChild (w : World) (com : Command) (readFd : Fd) (pipeIdx : Option Nat) :
    ChildExit :=
  match moveFileDescriptor w (.wired readFd) 0 with
  | .error d => .exited [d] .exitFailure
  | .ok _ =>
    match wirePipe w pipeIdx with
    | .error d => .exited [d] .exitFailure
    | .ok _ =>
      match applyRedirs w (initFds readFd pipeIdx) com.redirs with
      | .error d => .exited [d] .exitFailure
      | .ok st =>
        let name := com.args.headD ""
        if !w.progFound name then
          .exited [name ++ ": no such file or directory"] .execFailure
        else if !w.progExecutable name then
          .exited [name ++ ": permission denied"] .execFailure
        else .execed name com.args st

/-- One full general-path pipeline execution in environment `w`: the parent's
event trace paired with the exit each forked child reaches.  The parent branch
of `runCommand` (mshell.c lines 100-105) only registers the pid and returns;
every child failure is confined to its own process by the `fork()` boundary,
so the parent component is `generalPathEvents` whatever `w` says about the
children's descriptor operations, files, or programs. -/
def runPipelineGeneral (w : World) (bg : Bool) (cmds : List Command) :
    List Event × List ChildExit :=
  (generalPathEvents bg cmds,
   (wiring Fd.dupIn 0 cmds).map (fun s => runCommandChild w s.1 s.2.1 s.2.2))

lemma general_getLast (bg : Bool) (c : Command) (cs : List Command) :
    (generalPathEvents bg (c :: cs)).getLast? = some .unblockChld := by
  have h : generalPathEvents bg (c :: cs) =
      [Event.dupStdin, Event.blockChld] ++
        (stageEvents bg (c :: cs) Fd.dupIn 0 ++
          (if bg then [] else [Event.waitFg]) ++ [Event.unblockChld]) := rfl
  rw [h, List.getLast?_append, List.getLast?_append]
  rfl

/-- The open kind an output redirection flag maps to in `addRedirs`. -/
def outKind : RedirKind → OpenKind
  | .rin => .readOnly
  | .rout => .writeTrunc
  | .rappend => .writeAppend

lemma applyRedirs_stdin (w : World) : ∀ (rs : List Redir) (st st2 : ChildFds),
    applyRedirs w st rs = .ok st2 →
    st2.stdinSrc = (match (rs.filter (fun r => r.kind == RedirKind.rin)).getLast? with
      | some r => StreamSrc.file r.filename .readOnly
      | none => st.stdinSrc) := by
  intro rs
  induction rs with
  | nil =>
    intro st st2 h
    cases h
    rfl
  | cons r rs ih =>
    intro st st2 h
    rcases r with ⟨k, fn⟩
    cases k
    case rin =>
      simp only [applyRedirs, addRedirs] at h
      rcases ho : openFile w fn .readOnly with _ | d <;> rw [ho] at h
      · rcases hm : moveFileDescriptor w (ChildFd.opened fn OpenKind.readOnly) 0
            with d2 | _ <;> rw [hm] at h
        · exact Except.noConfusion h
        · have hrec := ih _ st2 h
          have hfc : (({ kind := RedirKind.rin, filename := fn } : Redir) :: rs).filter
              (fun r => r.kind == RedirKind.rin) =
              ({ kind := RedirKind.rin, filename := fn } : Redir) ::
                rs.filter (fun r => r.kind == RedirKind.rin) := by
            rw [List.filter_cons_of_pos]
            rfl
          rw [hfc]
          rcases hfl : rs.filter (fun r => r.kind == RedirKind.rin) with _ | ⟨a, t⟩
          · rw [hfl] at hrec
            rw [hfl]
            simpa using hrec
          · rw [hfl] at hrec
            rw [hfl, List.getLast?_cons_cons]
            exact hrec
      · exact Except.noConfusion h
    case rout =>
      simp only [applyRedirs, addRedirs] at h
      rcases ho : openFile w fn .writeTrunc with _ | d <;> rw [ho] at h
      · rcases hm : moveFileDescriptor w (ChildFd.opened fn OpenKind.writeTrunc) 1
            with d2 | _ <;> rw [hm] at h
        · exact Except.noConfusion h
        · have hrec := ih _ st2 h
          have hfc : (({ kind := RedirKind.rout, filename := fn } : Redir) :: rs).filter
              (fun r => r.kind == RedirKind.rin) =
              rs.filter (fun r => r.kind == RedirKind.rin) := by
            rw [List.filter_cons_of_neg]
            simp
          rw [hfc]
          exact hrec
      · exact Except.noConfusion h
    case rappend =>
      simp only [applyRedirs, addRedirs] at h
      rcases ho : openFile w fn .writeAppend with _ | d <;> rw [ho] at h
      · rcases hm : moveFileDescriptor w (ChildFd.opened fn OpenKind.writeAppend) 1
            with d2 | _ <;> rw [hm] at h
        · exact Except.noConfusion h
        · have hrec := ih _ st2 h
          have hfc : (({ kind := RedirKind.rappend, filename := fn } : Redir) :: rs).filter
              (fun r => r.kind == RedirKind.rin) =
              rs.filter (fun r => r.kind == RedirKind.rin) := by
            rw [List.filter_cons_of_neg]
            simp
          rw [hfc]
          exact hrec
      · exact Except.noConfusion h

lemma applyRedirs_stdout (w : World) : ∀ (rs : List Redir) (st st2 : ChildFds),
    applyRedirs w st rs = .ok st2 →
    st2.stdoutSrc = (match (rs.filter (fun r => !(r.kind == RedirKind.rin))).getLast? with
      | some r => StreamSrc.file r.filename (outKind r.kind)
      | none => st.stdoutSrc) := by
  intro rs
  induction rs with
  | nil =>
    intro st st2 h
    cases h
    rfl
  | cons r rs ih =>
    intro st st2 h
    rcases r with ⟨k, fn⟩
    cases k
    case rin =>
      simp only [applyRedirs, addRedirs] at h
      rcases ho : openFile w fn .readOnly with _ | d <;> rw [ho] at h
      · rcases hm : moveFileDescriptor w (ChildFd.opened fn OpenKind.readOnly) 0
            with d2 | _ <;> rw [hm] at h
        · exact Except.noConfusion h
        · have hrec := ih _ st2 h
          have hfc : (({ kind := RedirKind.rin, filename := fn } : Redir) :: rs).filter
              (fun r => !(r.kind == RedirKind.rin)) =
              rs.filter (fun r => !(r.kind == RedirKind.rin)) := by
            rw [List.filter_cons_of_neg]
            simp
          rw [hfc]
          exact hrec
      · exact Except.noConfusion h
    case rout =>
      simp only [applyRedirs, addRedirs] at h
      rcases ho : openFile w fn .writeTrunc with _ | d <;> rw [ho] at h
      · rcases hm : moveFileDescriptor w (ChildFd.opened fn OpenKind.writeTrunc) 1
            with d2 | _ <;> rw [hm] at h
        · exact Except.noConfusion h
        · have hrec := ih _ st2 h
          have hfc : (({ kind := RedirKind.rout, filename := fn } : Redir) :: rs).filter
              (fun r => !(r.kind == RedirKind.rin)) =
              ({ kind := RedirKind.rout, filename := fn } : Redir) ::
                rs.filter (fun r => !(r.kind == RedirKind.rin)) := by
            rw [List.filter_cons_of_pos]
            rfl
          rw [hfc]
          rcases hfl : rs.filter (fun r => !(r.kind == RedirKind.rin)) with _ | ⟨a, t⟩
          · rw [hfl] at hrec
            rw [hfl]
            simpa using hrec
          · rw [hfl] at hrec
            rw [hfl, List.getLast?_cons_cons]
            exact hrec
      · exact Except.noConfusion h
    case rappend =>
      simp only [applyRedirs, addRedirs] at h
      rcases ho : openFile w fn .writeAppend with _ | d <;> rw [ho] at h
      · rcases hm : moveFileDescriptor w (ChildFd.opened fn OpenKind.writeAppend) 1
            with d2 | _ <;> rw [hm] at h
        · exact Except.noConfusion h
        · have hrec := ih _ st2 h
          have hfc : (({ kind := RedirKind.rappend, filename := fn } : Redir) :: rs).filter
              (fun r => !(r.kind == RedirKind.rin)) =
              ({ kind := RedirKind.rappend, filename := fn } : Redir) ::
                rs.filter (fun r => !(r.kind == RedirKind.rin)) := by
            rw [List.filter_cons_of_pos]
            rfl
          rw [hfc]
          rcases hfl : rs.filter (fun r => !(r.kind == RedirKind.rin)) with _ | ⟨a, t⟩
          · rw [hfl] at hrec
            rw [hfl]
            simpa using hrec
          · rw [hfl] at hrec
            rw [hfl, List.getLast?_cons_cons]
            exact hrec
      · exact Except.noConfusion h

/-- A world in which no file exists but every other operation succeeds. -/
def worldNoFile : World :=
  { fileKnown := fun _ => false, fileReadable := fun _ => false,
    fileWritable := fun _ => true, progFound := fun _ => true,
    progExecutable := fun _ => true,
    dup2Ok := fun _ _ => true, closeOk := fun _ => true }

/-- A world in which every file operation succeeds but no program resolves. -/
def worldNoProg : World :=
  { fileKnown := fun _ => true, fileReadable := fun _ => true,
    fileWritable := fun _ => true, progFound := fun _ => false,
    progExecutable := fun _ => true,
    dup2Ok := fun _ _ => true, closeOk := fun _ => true }

/-- A world in which everything succeeds. -/
def worldAll : World :=
  { fileKnown := fun _ => true, fileReadable := fun _ => true,
    fileWritable := fun _ => true, progFound := fun _ => true,
    progExecutable := fun _ => true,
    dup2Ok := fun _ _ => true, closeOk := fun _ => true }

/-- A world in which every `dup2` call fails and everything else succeeds. -/
def worldBadDup : World :=
  { fileKnown := fun _ => true, fileReadable := fun _ => true,
    fileWritable := fun _ => true, progFound := fun _ => true,
    progExecutable := fun _ => true,
    dup2Ok := fun _ _ => false, closeOk := fun _ => true }

/-- A world in which only closing a pipe read end fails. -/
def worldBadClose : World :=
  { fileKnown := fun _ => true, fileReadable := fun _ => true,
    fileWritable := fun _ => true, progFound := fun _ => true,
    progExecutable := fun _ => true,
    dup2Ok := fun _ _ => true,
    closeOk := fun f => match f with
      | .wired (.pipeRead _) => false
      | _ => true }

/-- Counterexample to claim C5 as stated: a child whose input redirection
target does not exist prints its single diagnostic but exits with the generic
`EXIT_FAILURE` (`openFile`, mshell.c line 68), while a child whose program is
not found exits with `EXEC_FAILURE` (mshell.c line 144) — so launch failures
do not all use the single distinguished launch-failure status. -/
theorem C5_counterexample_status_differs :
    runCommandChild worldNoFile ⟨["cat"], [⟨.rin, "f"⟩]⟩ Fd.dupIn none =
      .exited ["f: no such file or directory"] .exitFailure ∧
    runCommandChild worldNoProg ⟨["nosuch"], []⟩ Fd.dupIn none =
      .exited ["nosuch: no such file or directory"] .execFailure ∧
    ExitStatus.exitFailure ≠ ExitStatus.execFailure := by
  refine ⟨by decide, by decide, by decide⟩

/-- Claim C5 (amended): every failure inside a launched child — a descriptor
operation (`dup2`/`close`) failing while wiring the input or the pipe, a
redirection that cannot be opened or moved, or the program not being found /
not executable — makes the child print exactly one diagnostic identifying the
failure (the failing file or program name, or the failing descriptor
operation) and terminate immediately; the exec failures use the distinguished
launch-failure status `EXEC_FAILURE`, while descriptor-operation and
redirection failures use the generic `EXIT_FAILURE`; and the parent is
unaffected and continues — its event trace is the same in every environment
and still ends with the SIGCHLD unblock. -/
theorem C5_launch_failures (w : World) (com : Command) (readFd : Fd)
    (pipeIdx : Option Nat) (d : String) (st : ChildFds) (bg : Bool) (c : Command)
    (cs : List Command) :
    (moveFileDescriptor w (.wired readFd) 0 = .error d →
      runCommandChild w com readFd pipeIdx = .exited [d] .exitFailure) ∧
    (moveFileDescriptor w (.wired readFd) 0 = .ok () →
      wirePipe w pipeIdx = .error d →
      runCommandChild w com readFd pipeIdx = .exited [d] .exitFailure) ∧
    (moveFileDescriptor w (.wired readFd) 0 = .error d →
      d = "dup2() failed" ∨ d = "close() failed") ∧
    (moveFileDescriptor w (.wired readFd) 0 = .ok () →
      wirePipe w pipeIdx = .ok () →
      applyRedirs w (initFds readFd pipeIdx) com.redirs = .error d →
      runCommandChild w com readFd pipeIdx = .exited [d] .exitFailure) ∧
    (moveFileDescriptor w (.wired readFd) 0 = .ok () →
      wirePipe w pipeIdx = .ok () →
      applyRedirs w (initFds readFd pipeIdx) com.redirs = .ok st →
      w.progFound (com.args.headD "") = false →
      runCommandChild w com readFd pipeIdx =
        .exited [com.args.headD "" ++ ": no such file or directory"] .execFailure) ∧
    (moveFileDescriptor w (.wired readFd) 0 = .ok () →
      wirePipe w pipeIdx = .ok () →
      applyRedirs w (initFds readFd pipeIdx) com.redirs = .ok st →
      w.progFound (com.args.headD "") = true →
      w.progExecutable (com.args.headD "") = false →
      runCommandChild w com readFd pipeIdx =
        .exited [com.args.headD "" ++ ": permission denied"] .execFailure) ∧
    ExitStatus.exitFailure ≠ ExitStatus.execFailure ∧
    (∀ w2 : World, (runPipelineGeneral w2 bg (c :: cs)).1 = generalPathEvents bg (c :: cs)) ∧
    (runPipelineGeneral w bg (c :: cs)).1.getLast? = some Event.unblockChld := by
  refine ⟨?_, ?_, ?_, ?_, ?_, ?_, by decide, fun _ => rfl, general_getLast bg c cs⟩
  · intro h
    simp [runCommandChild, h]
  · intro h1 h2
    simp [runCommandChild, h1, h2]
  · intro h
    by_cases h1 : w.dup2Ok (ChildFd.wired readFd) 0
    · by_cases h2 : w.closeOk (ChildFd.wired readFd)
      · simp [moveFileDescriptor, closeFileDescriptor, h1, h2] at h
      · simp [moveFileDescriptor, closeFileDescriptor, h1, h2] at h
        exact Or.inr h.symm
    · simp [moveFileDescriptor, h1] at h
      exact Or.inl h.symm
  · intro h1 h2 h3
    simp [runCommandChild, h1, h2, h3]
  · intro h1 h2 h3 hf
    have hf2 : w.progFound (com.args.head?.getD "") = false := by simpa using hf
    simp [runCommandChild, h1, h2, h3, hf2]
  · intro h1 h2 h3 hf he
    have hf2 : w.progFound (com.args.head?.getD "") = true := by simpa using hf
    have he2 : w.progExecutable (com.args.head?.getD "") = false := by simpa using he
    simp [runCommandChild, h1, h2, h3, hf2, he2]

/-- Witness for the amended C5: a failing `dup2` while wiring the input, a
failing `close` of a pipe read end, a missing redirection target, and an
unresolvable program name — the first three exit `EXIT_FAILURE`, the last
`EXEC_FAILURE`, each with its single diagnostic. -/
theorem C5_launch_failures_w :
    runCommandChild worldBadDup ⟨["cat"], []⟩ Fd.dupIn none =
      .exited ["dup2() failed"] .exitFailure ∧
    runCommandChild worldBadClose ⟨["cat"], []⟩ Fd.dupIn (some 0) =
      .exited ["close() failed"] .exitFailure ∧
    runCommandChild worldNoFile ⟨["cat"], [⟨.rin, "g"⟩]⟩ Fd.dupIn none =
      .exited ["g: no such file or directory"] .exitFailure ∧
    runCommandChild worldNoProg ⟨["absent"], []⟩ Fd.dupIn none =
      .exited ["absent: no such file or directory"] .execFailure := by
  have h0 := C5_launch_failures worldBadDup ⟨["cat"], []⟩ Fd.dupIn none
    "dup2() failed" (initFds Fd.dupIn none) false ⟨["cat"], []⟩ []
  have hc := C5_launch_failures worldBadClose ⟨["cat"], []⟩ Fd.dupIn (some 0)
    "close() failed" (initFds Fd.dupIn (some 0)) false ⟨["cat"], []⟩ []
  have h1 := C5_launch_failures worldNoFile ⟨["cat"], [⟨.rin, "g"⟩]⟩ Fd.dupIn none
    "g: no such file or directory" (initFds Fd.dupIn none) false ⟨["cat"], []⟩ []
  have h2 := C5_launch_failures worldNoProg ⟨["absent"], []⟩ Fd.dupIn none ""
    (initFds Fd.dupIn none) false ⟨["absent"], []⟩ []
  exact ⟨h0.1 rfl, hc.2.1 rfl rfl, h1.2.2.2.1 rfl rfl rfl,
    h2.2.2.2.2.1 rfl rfl rfl (by decide)⟩

/-- Claim C6: redirections are applied in listed order in the child; on
success, standard input is bound to the file of the LAST input redirection
(read-only, requiring an existing readable file) and standard output to the
file of the LAST output redirection, opened truncating for `>` and appending
for `>>` — later redirections of the same stream replace earlier ones; a
missing input target fails with the `ENOENT` diagnostic and an unreadable one
with the `EACCES` diagnostic; and the creation mode for output targets is
owner read-write plus group/other read, 0644. -/
theorem C6_redirections_last_wins (w : World) (st st2 : ChildFds) (rs : List Redir)
    (f : String) :
    (applyRedirs w st rs = .ok st2 →
      st2.stdinSrc = (match (rs.filter (fun r => r.kind == RedirKind.rin)).getLast? with
        | some r => StreamSrc.file r.filename .readOnly
        | none => st.stdinSrc) ∧
      st2.stdoutSrc = (match (rs.filter (fun r => !(r.kind == RedirKind.rin))).getLast? with
        | some r => StreamSrc.file r.filename (outKind r.kind)
        | none => st.stdoutSrc)) ∧
    (w.fileKnown f = false →
      addRedirs w ⟨.rin, f⟩ st = .error (f ++ ": no such file or directory")) ∧
    (w.fileKnown f = true → w.fileReadable f = false →
      addRedirs w ⟨.rin, f⟩ st = .error (f ++ ": permission denied")) ∧
    redirMode = 0o644 := by
  refine ⟨fun h => ⟨applyRedirs_stdin w rs st st2 h, applyRedirs_stdout w rs st st2 h⟩,
    ?_, ?_, by decide⟩
  · intro h
    simp [addRedirs, openFile, h]
  · intro h1 h2
    simp [addRedirs, openFile, h1, h2]

/-- Witness for C6: with two output-truncate redirections, first to `"a"` and
then to `"b"`, the child's standard output ends bound to `"b"` alone
(last-wins, the claim's concrete example), and a missing input target fails
with the `ENOENT` diagnostic. -/
theorem C6_redirections_last_wins_w :
    applyRedirs worldAll (initFds Fd.dupIn none) [⟨.rout, "a"⟩, ⟨.rout, "b"⟩] =
      .ok { stdinSrc := .fd Fd.dupIn, stdoutSrc := .file "b" .writeTrunc } ∧
    ChildFds.stdoutSrc { stdinSrc := .fd Fd.dupIn, stdoutSrc := .file "b" .writeTrunc } =
      .file "b" .writeTrunc ∧
    addRedirs worldNoFile ⟨.rin, "g"⟩ (initFds Fd.dupIn none) =
      .error ("g" ++ ": no such file or directory") := by
  have happ : applyRedirs worldAll (initFds Fd.dupIn none) [⟨.rout, "a"⟩, ⟨.rout, "b"⟩] =
      .ok { stdinSrc := .fd Fd.dupIn, stdoutSrc := .file "b" .writeTrunc } := rfl
  have h := C6_redirections_last_wins worldAll (initFds Fd.dupIn none)
    { stdinSrc := .fd Fd.dupIn, stdoutSrc := .file "b" .writeTrunc }
    [⟨.rout, "a"⟩, ⟨.rout, "b"⟩] "g"
  have h2 := C6_redirections_last_wins worldNoFile (initFds Fd.dupIn none)
    (initFds Fd.dupIn none) [] "g"
  exact ⟨happ, ((h.1 happ).2).trans (by decide), h2.2.1 (by decide)⟩

end MShell
